import Mathlib

/-!
# Verification of `rss_to_slack.py`

A shallow embedding of the repository's single source file
`src/rss_to_slack.py` (an RSS→Slack posting script), together with
proofs settling the specification claims about it.

Modelling conventions:
* A Python `str` is modelled as `List Char` (Python indexes/slices
  strings by code point, which matches `List Char` exactly).
* Python integers are `Int` (counters that are provably non-negative are
  `Nat`); the spec's Run Configuration declares `window minutes` and
  `max posts` as integers ≥ 0, so those two fields are `Nat`.
* The two regular expressions in `strip_html` and the fallible external
  calls (`feedparser.parse`, `dateutil.parser.parse`, `requests.post`)
  are modelled by executable functions / oracles described at their
  definitions.  An exception thrown by an external call is modelled by
  the corresponding oracle value (`none` / `.raises` / `.exn`), so
  "never raises" becomes totality of the embedded function.
-/

/-- A Python string: a sequence of code points. -/
abbrev Str := List Char

/-- Python's whitespace class for `str` (the characters matched by `\s`
in a `re` pattern over `str`, which is also the set stripped by
`str.strip()` on the texts at hand): ASCII whitespace, the C1/Unicode
space characters. -/
def pyWs (c : Char) : Bool :=
  c == ' ' || c == '\t' || c == '\n' || c == '\r' || c == '\x0b' || c == '\x0c' ||
  c == '\x1c' || c == '\x1d' || c == '\x1e' || c == '\x1f' || c == '\x85' || c == '\xa0' ||
  c == '\u1680' || ('\u2000' ≤ c && c ≤ '\u200a') || c == '\u2028' || c == '\u2029' ||
  c == '\u202f' || c == '\u205f' || c == '\u3000'

/-- One left-to-right pass of `re.sub(r"<[^>]+>", " ", s)`
(`rss_to_slack.py` line 29).  The regex matches `<`, one or more
characters other than `>`, then `>`; since `[^>]+` cannot cross a `>`,
the leftmost match starting at a `<` spans up to the first following
`>` provided at least one character lies between, and scanning resumes
after the match.  `pending = some buf` means a `<` has been read and
`buf` holds the characters seen since (none of them `>`). -/
def subTagsGo : Str → Option Str → Str
  | [], none => []
  | [], some buf => '<' :: buf
  | c :: rest, none =>
    if c = '<' then subTagsGo rest (some [])
    else c :: subTagsGo rest none
  | c :: rest, some buf =>
    if c = '>' then
      if buf = [] then '<' :: '>' :: subTagsGo rest none
      else ' ' :: subTagsGo rest none
    else subTagsGo rest (some (buf ++ [c]))

/-- `re.sub(r"<[^>]+>", " ", s)`: every `<tag>`-shaped span becomes one
space. -/
def subTags (s : Str) : Str := subTagsGo s none

/-- `re.sub(r"&nbsp;?", " ", s)` (`rss_to_slack.py` line 30): each
occurrence of `&nbsp` with an optional trailing `;` (taken greedily)
becomes one space; scanning is left-to-right, non-overlapping. -/
def subNbsp : Str → Str
  | '&' :: 'n' :: 'b' :: 's' :: 'p' :: ';' :: rest => ' ' :: subNbsp rest
  | '&' :: 'n' :: 'b' :: 's' :: 'p' :: rest => ' ' :: subNbsp rest
  | c :: rest => c :: subNbsp rest
  | [] => []

/-- One pass of `re.sub(r"\s+", " ", s)` (`rss_to_slack.py` line 31):
each maximal run of whitespace becomes a single space.  The flag
records whether the previous character belonged to a run whose space
has already been emitted. -/
def collapseGo : Str → Bool → Str
  | [], _ => []
  | c :: rest, inRun =>
    if pyWs c then
      if inRun then collapseGo rest true
      else ' ' :: collapseGo rest true
    else c :: collapseGo rest false

/-- `re.sub(r"\s+", " ", s)`. -/
def collapse (s : Str) : Str := collapseGo s false

/-- Remove trailing whitespace (the right half of Python `str.strip()`). -/
def rstrip : Str → Str
  | [] => []
  | c :: rest =>
    match rstrip rest with
    | [] => if pyWs c then [] else [c]
    | r => c :: r

/-- Python `str.strip()`: remove leading and trailing whitespace. -/
def pyStrip (s : Str) : Str := rstrip (s.dropWhile pyWs)

/-- `strip_html` (`rss_to_slack.py` lines 26–31): empty input short
circuits to the empty string; otherwise tag spans become spaces, then
`&nbsp;`/`&nbsp` entities become spaces, then whitespace runs are
collapsed to single spaces and the ends are stripped. -/
def strip_html (s : Str) : Str :=
  if s = [] then []
  else pyStrip (collapse (subNbsp (subTags s)))


/-! ## Spec-side sanitizer (§4.2 of the spec)

For the refinement claims about the sanitizer, a second pipeline is
built following the spec's words.  The spec describes the `&nbsp;`
replacement and the whitespace collapse/trim exactly as the code does,
so those steps are shared; the disputed tag step is modelled
separately, parametrised by what replaces a matched `<tag>` span. -/

/-- Generic tag-span substitution machine: like `subTagsGo` but each
matched `<tag>` span is replaced by `repl`. -/
def tagMachine (repl : Str) : Str → Option Str → Str
  | [], none => []
  | [], some buf => '<' :: buf
  | c :: rest, none =>
    if c = '<' then tagMachine repl rest (some [])
    else c :: tagMachine repl rest none
  | c :: rest, some buf =>
    if c = '>' then
      if buf = [] then '<' :: '>' :: tagMachine repl rest none
      else repl ++ tagMachine repl rest none
    else tagMachine repl rest (some (buf ++ [c]))

/-- The sanitizer exactly as the spec sentence reads: markup spans are
*removed* (replaced by nothing), the `&nbsp;`/`&nbsp` entity becomes a
space, whitespace runs collapse to one space, ends are trimmed. -/
def specSanitizeRemove (s : Str) : Str :=
  if s = [] then []
  else pyStrip (collapse (subNbsp (tagMachine [] s none)))

/-- The sanitizer as the amended claim reads: markup spans are
*replaced by one space* each; the rest of the pipeline is unchanged. -/
def specSanitizeSpace (s : Str) : Str :=
  if s = [] then []
  else pyStrip (collapse (subNbsp (tagMachine [' '] s none)))

/-! ## Item formatting (`main`, lines 130–136) -/

/-- Python truthy-`or` on optional strings: `entry.get(k) or default`. -/
def pyOr (v : Option Str) (d : Str) : Str :=
  match v with
  | some s => if s = [] then d else s
  | none => d

/-- The message text built in `main` (lines 134–136):
`f"*New:* {title}\n{link}"`, plus — when the sanitized summary is
non-empty — a further line holding the first 300 characters of the
summary and an ellipsis character exactly when the summary exceeds 300
characters. -/
def formatText (title link summary : Str) : Str :=
  let base := "*New:* ".data ++ title ++ "\n".data ++ link
  if summary = [] then base
  else base ++ "\n".data ++ summary.take 300 ++
    (if 300 < summary.length then "…".data else [])

/-! ## Date normalization (`parse_pubdate`, lines 33–57)

Instants are integers: seconds on a fixed UTC timeline (the origin is
0000-03-01 UTC; only differences and comparisons matter).  A
`time.struct_time` field is a list of integers; the free-text parser
`dateutil.parser.parse` is an oracle producing either `none` (the
parse raised) or the broken-down result as naive seconds on the same
timeline plus the parsed UTC offset, if the string carried one. -/

/-- Result of `dateutil.parser.parse`: the parsed wall-clock instant as
seconds on the timeline (read naively, ignoring any offset), and the
timezone offset in seconds if the string carried a timezone. -/
structure NaiveDT where
  secs : Int
  tz : Option Int
  deriving DecidableEq

/-- Gregorian leap year (as Python's `datetime` uses). -/
def isLeap (y : Int) : Bool := (y % 4 == 0 && y % 100 != 0) || y % 400 == 0

/-- Days in a month, per Python's `datetime` validation. -/
def daysInMonth (y m : Int) : Int :=
  if m == 2 then (if isLeap y then 29 else 28)
  else if m == 4 || m == 6 || m == 9 || m == 11 then 30
  else 31

/-- Whether `datetime(*t[:6], tzinfo=UTC)` succeeds: at least the three
mandatory components, and every supplied component in range (missing
hour/minute/second default to 0).  Components beyond the sixth are
ignored. -/
def validParts (t : List Int) : Bool :=
  3 ≤ t.length &&
  (let y := t.getD 0 0
   let mo := t.getD 1 0
   let d := t.getD 2 0
   let h := t.getD 3 0
   let mi := t.getD 4 0
   let s := t.getD 5 0
   1 ≤ y && y ≤ 9999 && 1 ≤ mo && mo ≤ 12 && 1 ≤ d && d ≤ daysInMonth y mo &&
   0 ≤ h && h < 24 && 0 ≤ mi && mi < 60 && 0 ≤ s && s < 60)

/-- Days between 0000-03-01 and the civil date `y-m-d` (valid dates
only; Howard Hinnant's `days_from_civil`, shifted so the result is a
`Nat`). -/
def civilDays (y m d : Nat) : Nat :=
  let y' := if m ≤ 2 then y - 1 else y
  let era := y' / 400
  let yoe := y' % 400
  let mp := (m + 9) % 12
  let doy := (153 * mp + 2) / 5 + (d - 1)
  let doe := yoe * 365 + yoe / 4 - yoe / 100 + doy
  era * 146097 + doe

/-- The UTC instant `datetime(*t[:6], tzinfo=UTC)` denotes, in timeline
seconds (meaningful when `validParts t`). -/
def utcFromParts (t : List Int) : Int :=
  ((civilDays (t.getD 0 0).toNat (t.getD 1 0).toNat (t.getD 2 0).toNat * 86400
    + (t.getD 3 0).toNat * 3600 + (t.getD 4 0).toNat * 60 + (t.getD 5 0).toNat : Nat) : Int)

/-- One structured candidate (lines 39–45): the field's value if any
(`None` when absent); `if t:` skips a falsy (empty) value; the
`datetime` construction either succeeds on the first six components or
raises, which the `except` swallows. -/
def tryStructField (t? : Option (List Int)) : Option Int :=
  match t? with
  | none => none
  | some t =>
    if t = [] then none
    else if validParts t then some (utcFromParts t) else none

/-- One free-text candidate (lines 47–56): `if s:` skips an absent or
empty field; `dateparser.parse` may raise (`none`); a naive result is
reinterpreted as UTC unchanged (`replace(tzinfo=UTC)`), an aware one is
converted (`astimezone(UTC)` subtracts the offset). -/
def tryTextField (dparse : Str → Option NaiveDT) (s? : Option Str) : Option Int :=
  match s? with
  | none => none
  | some s =>
    if s = [] then none
    else match dparse s with
      | none => none
      | some d => some (d.secs - d.tz.getD 0)

/-- Outcome of a `requests.post` call: an HTTP response (any status)
or a raised transport exception with its class name and message. -/
inductive HttpResult where
  | ok (status : Int) (body : Str)
  | exn (ename emsg : Str)
  deriving DecidableEq

/-- A feedparser entry, as the mapping the script reads: every field
optional.  `postResponse` is the transport oracle for the (at most
one) `requests.post` this entry can trigger. -/
structure Entry where
  published_parsed : Option (List Int) := none
  updated_parsed : Option (List Int) := none
  published : Option Str := none
  updated : Option Str := none
  created : Option Str := none
  title : Option Str := none
  link : Option Str := none
  summary : Option Str := none
  description : Option Str := none
  postResponse : HttpResult := .exn [] []

/-- `parse_pubdate(entry)` (lines 33–57): structured fields first
(`published_parsed`, `updated_parsed`), then free-text fields
(`published`, `updated`, `created`), first success wins; `None` when
every candidate is absent, falsy or fails.  Total — the Python
function lets no exception escape. -/
def parse_pubdate (dparse : Str → Option NaiveDT) (e : Entry) : Option Int :=
  match tryStructField e.published_parsed with
  | some v => some v
  | none =>
    match tryStructField e.updated_parsed with
    | some v => some v
    | none =>
      match tryTextField dparse e.published with
      | some v => some v
      | none =>
        match tryTextField dparse e.updated with
        | some v => some v
        | none =>
          match tryTextField dparse e.created with
          | some v => some v
          | none => none

/-- Spec-side structured candidate (§4.1 step 1 and its edge case): if
the field is present and well formed, the UTC instant built directly
from its first six components; a malformed or missing value falls
through to the next candidate. -/
def specStructCand (t? : Option (List Int)) : Option Int :=
  match t? with
  | some t => if validParts t then some (utcFromParts t) else none
  | none => none

/-- Spec-side free-text candidate (§4.1 step 2): best-effort parse of a
provided (non-blank) field; a parsed value with no timezone is assumed
to be UTC, one with a timezone is converted to UTC; a failed parse
falls through. -/
def specTextCand (dparse : Str → Option NaiveDT) (s? : Option Str) : Option Int :=
  match s? with
  | some s =>
    if s = [] then none
    else
      (dparse s).map (fun d =>
        match d.tz with
        | none => d.secs
        | some off => d.secs - off)
  | none => none

/-- Spec-side date normalizer (§4.1): an ordered candidate list,
first match wins.  Structured fields `published_parsed`,
`updated_parsed` first, then free-text `published`, `updated`,
`created`; otherwise "no date". -/
def specParsePubdate (dparse : Str → Option NaiveDT) (e : Entry) : Option Int :=
  [ specStructCand e.published_parsed,
    specStructCand e.updated_parsed,
    specTextCand dparse e.published,
    specTextCand dparse e.updated,
    specTextCand dparse e.created ].findSome? id

/-! ## Webhook poster (`post_to_slack`, lines 59–71) -/

/-- `post_to_slack(text)`: under DRY_RUN, immediately
`(True, 0, "DRY_RUN")` with no network activity (the transport oracle
`net` is not consulted); otherwise the outcome of the single
`requests.post`: success iff the status is in `[200, 300)`, with the
response body truncated to 200 characters, or `(False, -1, "<class>:
<message>")` when the transport raised.  Total — the Python function
catches every exception at this boundary. -/
def post_to_slack (dryRun : Bool) (text : Str) (net : HttpResult) : Bool × Int × Str :=
  if dryRun then (true, 0, "DRY_RUN".data)
  else
    match net with
    | .ok status body => (decide (200 ≤ status ∧ status < 300), status, body.take 200)
    | .exn ename emsg => (false, -1, ename ++ ": ".data ++ emsg)

/-! ## The run (`main`, lines 74–168) -/

/-- Result of `feedparser.parse(url)`: either the call raised (caught
by the per-feed `except`), or it produced a list of entries
(`feed.entries or []` — an absent/falsy `entries` is the empty
list). -/
inductive FeedResult where
  | raises
  | parsed (entries : List Entry)

/-- The module-level configuration read from the environment (lines
17–23), after `.strip()`.  Per the spec's Run Configuration, `window
minutes` and `max posts` are integers ≥ 0. -/
structure Config where
  FEED_URLS : Str
  WEBHOOK : Str
  WINDOWMIN : Nat
  DRY_RUN : Bool
  MAX_POSTS : Nat

/-- The external world of one run: the feed fetcher, the free-text
date parser, and the current UTC time in timeline seconds. -/
structure World where
  fetch : Str → FeedResult
  dparse : Str → Option NaiveDT
  now : Int

/-- The per-feed counters (lines 100–105). -/
structure FeedStats where
  total : Nat
  in_window : Nat
  posted : Nat
  skipped_no_date : Nat
  skipped_old : Nat
  skipped_error : Nat
  deriving DecidableEq, Repr

/-- One line printed to the standard log stream, abstracted to its
kind and the data interpolated into it. -/
inductive LogEvent where
  | fatalNoWebhook
  | warnNoFeeds
  | configEcho (now cutoff : Int) (dryRun : Bool) (maxPosts windowMin : Nat)
  | feedHeader (url : Str)
  | entriesCount (n : Nat)
  | capReached
  | postedLine (status : Int) (titleHead : Str)
  | errorLine (status : Int) (detail : Str)
  | feedException
  | resultLine (st : FeedStats)
  | summaryHeader
  | summaryFeeds (n : Nat)
  | summaryTotal (n : Nat)
  | summaryWindow (n : Nat)
  | summaryPosted (n : Nat) (dryRun : Bool)
  | summaryFooter
  | postedMarker (n : Nat)
  deriving DecidableEq

/-- State coming out of one feed's entry loop: the feed's counters,
the global posted counter, the texts handed to `post_to_slack`, and
the log lines. -/
structure LoopOut where
  st : FeedStats
  gp : Nat
  calls : List Str
  log : List LogEvent
  deriving DecidableEq

/-- The entry loop of one feed (lines 113–146).  Before each entry the
global cap is checked and the loop breaks once `grand_posted >=
MAX_POSTS`; a dateless entry increments `skipped_no_date`; an entry
older than the cutoff increments `skipped_old`; otherwise `in_window`
is incremented, the message is formatted and posted, and either
`posted` and `grand_posted` or `skipped_error` is incremented. -/
def entryText (e : Entry) : Str :=
  formatText (pyOr e.title "(no title)".data) (pyOr e.link [])
    (strip_html (pyOr e.summary (pyOr e.description [])))

def feedLoop (cfg : Config) (dp : Str → Option NaiveDT) (cutoff : Int) :
    List Entry → FeedStats → Nat → LoopOut
  | [], st, gp => ⟨st, gp, [], []⟩
  | e :: rest, st, gp =>
    if cfg.MAX_POSTS ≤ gp then ⟨st, gp, [], [.capReached]⟩
    else
      match parse_pubdate dp e with
      | none => feedLoop cfg dp cutoff rest
          { st with skipped_no_date := st.skipped_no_date + 1 } gp
      | some pub =>
        if pub < cutoff then
          feedLoop cfg dp cutoff rest { st with skipped_old := st.skipped_old + 1 } gp
        else
          let res := post_to_slack cfg.DRY_RUN (entryText e) e.postResponse
          if res.1 then
            ⟨(feedLoop cfg dp cutoff rest
                { st with in_window := st.in_window + 1, posted := st.posted + 1 } (gp + 1)).st,
             (feedLoop cfg dp cutoff rest
                { st with in_window := st.in_window + 1, posted := st.posted + 1 } (gp + 1)).gp,
             entryText e :: (feedLoop cfg dp cutoff rest
                { st with in_window := st.in_window + 1, posted := st.posted + 1 } (gp + 1)).calls,
             .postedLine res.2.1 ((pyOr e.title "(no title)".data).take 60) ::
               (feedLoop cfg dp cutoff rest
                 { st with in_window := st.in_window + 1, posted := st.posted + 1 }
                 (gp + 1)).log⟩
          else
            ⟨(feedLoop cfg dp cutoff rest
                { st with in_window := st.in_window + 1, skipped_error := st.skipped_error + 1 } gp).st,
             (feedLoop cfg dp cutoff rest
                { st with in_window := st.in_window + 1, skipped_error := st.skipped_error + 1 } gp).gp,
             entryText e :: (feedLoop cfg dp cutoff rest
                { st with in_window := st.in_window + 1, skipped_error := st.skipped_error + 1 } gp).calls,
             .errorLine res.2.1 res.2.2 :: (feedLoop cfg dp cutoff rest
                { st with in_window := st.in_window + 1, skipped_error := st.skipped_error + 1 } gp).log⟩

/-- One feed (lines 98–157): fetch/parse the feed inside the `try`,
run the entry loop; a raised fetch/parse leaves all counters zero
except `skipped_error = 1`.  The result line is printed either way. -/
def processFeed (cfg : Config) (w : World) (cutoff : Int) (gp : Nat) (url : Str) : LoopOut :=
  match w.fetch url with
  | .raises =>
    ⟨⟨0, 0, 0, 0, 0, 1⟩, gp, [],
      [.feedHeader url, .feedException, .resultLine ⟨0, 0, 0, 0, 0, 1⟩]⟩
  | .parsed es =>
    let r := feedLoop cfg w.dparse cutoff es ⟨es.length, 0, 0, 0, 0, 0⟩ gp
    ⟨r.st, r.gp, r.calls,
      [.feedHeader url, .entriesCount es.length] ++ r.log ++ [.resultLine r.st]⟩

/-- Accumulated output of the whole feed loop of `main`. -/
structure RunOut where
  stats : List FeedStats
  gp : Nat
  calls : List Str
  log : List LogEvent

/-- All feeds in order, threading the global posted counter. -/
def runFeeds (cfg : Config) (w : World) (cutoff : Int) :
    List Str → Nat → RunOut
  | [], gp => ⟨[], gp, [], []⟩
  | url :: rest, gp =>
    let r := processFeed cfg w cutoff gp url
    let rs := runFeeds cfg w cutoff rest r.gp
    ⟨r.st :: rs.stats, rs.gp, r.calls ++ rs.calls, r.log ++ rs.log⟩

/-- Python `s.split(",")`. -/
def splitComma : Str → List Str
  | [] => [[]]
  | ',' :: rest => [] :: splitComma rest
  | c :: rest =>
    match splitComma rest with
    | [] => [[c]]
    | p :: ps => (c :: p) :: ps

/-- `[u.strip() for u in FEED_URLS.split(",") if u.strip()]` (line 93). -/
def feedsOf (cfg : Config) : List Str :=
  ((splitComma cfg.FEED_URLS).map pyStrip).filter (· ≠ [])

/-- Observable outcome of one `main()` run. -/
structure RunResult where
  exitCode : Int
  stats : List FeedStats
  grandTotal : Nat
  grandInWindow : Nat
  grandPosted : Nat
  slackCalls : List Str
  log : List LogEvent

/-- `main()` (lines 74–168): fatal exit 2 when the webhook is unset;
benign exit 0 when `FEED_URLS` is empty; otherwise compute the cutoff
`now - WINDOWMIN minutes`, process every feed, and always emit the
summary block; exit 0. -/
def pymain (cfg : Config) (w : World) : RunResult :=
  if cfg.WEBHOOK = [] then
    ⟨2, [], 0, 0, 0, [], [.fatalNoWebhook]⟩
  else if cfg.FEED_URLS = [] then
    ⟨0, [], 0, 0, 0, [], [.warnNoFeeds]⟩
  else
    let cutoff := w.now - 60 * (cfg.WINDOWMIN : Int)
    let feeds := feedsOf cfg
    let r := runFeeds cfg w cutoff feeds 0
    { exitCode := 0
      stats := r.stats
      grandTotal := (r.stats.map (·.total)).sum
      grandInWindow := (r.stats.map (·.in_window)).sum
      grandPosted := r.gp
      slackCalls := r.calls
      log := [.configEcho w.now cutoff cfg.DRY_RUN cfg.MAX_POSTS cfg.WINDOWMIN] ++ r.log ++
        [.summaryHeader, .summaryFeeds feeds.length,
         .summaryTotal ((r.stats.map (·.total)).sum),
         .summaryWindow ((r.stats.map (·.in_window)).sum),
         .summaryPosted r.gp cfg.DRY_RUN, .summaryFooter, .postedMarker r.gp] }

/-! ## Predicates used by the proofs -/

/-- No occurrence of the `&nbsp` entity head anywhere in the string. -/
def nbspFree (l : Str) : Prop := ¬ (['&', 'n', 'b', 's', 'p'] <:+: l)

/-- Pair condition for the whitespace normal form: the head of the tail
is not a second consecutive space. -/
def nextOk (a : Char) : Str → Bool
  | b :: _ => !(a == ' ' && b == ' ')
  | [] => true

/-- Whitespace normal form: every whitespace character is a plain space
and no two spaces are adjacent (exactly the strings on which one
whitespace-collapse pass is the identity). -/
def wsnorm : Str → Bool
  | [] => true
  | a :: rest => (!pyWs a || a == ' ') && nextOk a rest && wsnorm rest

/-! ## Behaviour checks of the sanitizer model against Python

`re.sub(r"<[^>]+>", " ", ...)`, `re.sub(r"&nbsp;?", " ", ...)` and
`re.sub(r"\s+", " ", ...).strip()` on these inputs produce exactly
these outputs. -/

example : strip_html ("  hello <b>world</b>&nbsp;! ".data) = "hello world !".data := by decide
example : strip_html ("a<b>c".data) = "a c".data := by decide
example : strip_html ("<<a>".data) = "".data := by decide
example : strip_html ("<>x".data) = "<>x".data := by decide
example : strip_html ("a&nbspb".data) = "a b".data := by decide
example : strip_html ("a\n\n  b".data) = "a b".data := by decide
example : strip_html ("<a".data) = "<a".data := by decide

/-! ## Sanitizer theory: idempotence of `strip_html` on markup-free output -/

theorem subNbsp_prefix_transfer :
    ∀ (r p : Str), (∀ ch ∈ p, ch ≠ '&' ∧ ch ≠ ' ') → p <+: subNbsp r → p <+: r := by
  intro r
  induction r using subNbsp.induct with
  | case1 rest ih =>
    intro p hp hpre
    rw [subNbsp.eq_1] at hpre
    cases p with
    | nil => exact List.nil_prefix
    | cons q p' =>
      rw [List.cons_prefix_cons] at hpre
      exact absurd hpre.1 (hp q (by simp)).2
  | case2 rest hms ih =>
    intro p hp hpre
    rw [subNbsp.eq_2 rest hms] at hpre
    cases p with
    | nil => exact List.nil_prefix
    | cons q p' =>
      rw [List.cons_prefix_cons] at hpre
      exact absurd hpre.1 (hp q (by simp)).2
  | case3 c rest h1 h2 ih =>
    intro p hp hpre
    rw [subNbsp.eq_3 c rest h1 h2] at hpre
    cases p with
    | nil => exact List.nil_prefix
    | cons q p' =>
      rw [List.cons_prefix_cons] at hpre ⊢
      exact ⟨hpre.1, ih p' (fun ch hch => hp ch (List.mem_cons_of_mem _ hch)) hpre.2⟩
  | case4 =>
    intro p hp hpre
    rw [subNbsp.eq_4] at hpre
    rw [List.prefix_nil] at hpre
    simp [hpre]

theorem subNbsp_nbspFree : ∀ r : Str, nbspFree (subNbsp r) := by
  intro r
  induction r using subNbsp.induct with
  | case1 rest ih =>
    intro h
    rw [subNbsp.eq_1, List.infix_cons_iff] at h
    rcases h with h | h
    · rw [List.cons_prefix_cons] at h
      exact absurd h.1 (by decide)
    · exact ih h
  | case2 rest hms ih =>
    intro h
    rw [subNbsp.eq_2 rest hms, List.infix_cons_iff] at h
    rcases h with h | h
    · rw [List.cons_prefix_cons] at h
      exact absurd h.1 (by decide)
    · exact ih h
  | case3 c rest h1 h2 ih =>
    intro h
    rw [subNbsp.eq_3 c rest h1 h2, List.infix_cons_iff] at h
    rcases h with h | h
    · rw [List.cons_prefix_cons] at h
      obtain ⟨hq, hrest⟩ := h
      obtain ⟨t, ht⟩ := subNbsp_prefix_transfer rest ['n', 'b', 's', 'p'] (by decide) hrest
      exact h2 t hq.symm ht.symm
    · exact ih h
  | case4 =>
    intro h
    rw [subNbsp.eq_4] at h
    exact absurd h (by decide)

theorem collapse_prefix_transfer :
    ∀ (r p : Str), (∀ ch ∈ p, pyWs ch = false) → p <+: collapseGo r false → p <+: r := by
  intro r
  induction r with
  | nil =>
    intro p hp hpre
    simp only [collapseGo] at hpre
    rw [List.prefix_nil] at hpre
    simp [hpre]
  | cons d r2 ih =>
    intro p hp hpre
    by_cases hd : pyWs d
    · rw [show collapseGo (d :: r2) false = ' ' :: collapseGo r2 true from by
        simp [collapseGo, hd]] at hpre
      cases p with
      | nil => exact List.nil_prefix
      | cons q p' =>
        rw [List.cons_prefix_cons] at hpre
        have hq := hp q (by simp)
        rw [hpre.1] at hq
        exact absurd hq (by decide)
    · rw [show collapseGo (d :: r2) false = d :: collapseGo r2 false from by
        simp [collapseGo, hd]] at hpre
      cases p with
      | nil => exact List.nil_prefix
      | cons q p' =>
        rw [List.cons_prefix_cons] at hpre ⊢
        exact ⟨hpre.1, ih p' (fun ch hch => hp ch (List.mem_cons_of_mem _ hch)) hpre.2⟩

theorem collapseGo_nbspFree : ∀ (l : Str) (b : Bool), nbspFree l → nbspFree (collapseGo l b) := by
  intro l
  induction l with
  | nil =>
    intro b _ h
    simp only [collapseGo] at h
    exact absurd h (by decide)
  | cons d r2 ih =>
    intro b hfree h
    have hr2 : nbspFree r2 := fun hin => hfree (List.infix_cons hin)
    by_cases hd : pyWs d
    · cases b with
      | true =>
        rw [show collapseGo (d :: r2) true = collapseGo r2 true from by simp [collapseGo, hd]] at h
        exact ih true hr2 h
      | false =>
        rw [show collapseGo (d :: r2) false = ' ' :: collapseGo r2 true from by
          simp [collapseGo, hd], List.infix_cons_iff] at h
        rcases h with h | h
        · rw [List.cons_prefix_cons] at h
          exact absurd h.1 (by decide)
        · exact ih true hr2 h
    · rw [show collapseGo (d :: r2) b = d :: collapseGo r2 false from by
        simp [collapseGo, hd], List.infix_cons_iff] at h
      rcases h with h | h
      · rw [List.cons_prefix_cons] at h
        obtain ⟨hq, hrest⟩ := h
        have htr := collapse_prefix_transfer r2 ['n', 'b', 's', 'p'] (by decide) hrest
        exact hfree (List.IsPrefix.isInfix (List.cons_prefix_cons.mpr ⟨hq, htr⟩))
      · exact ih false hr2 h

theorem rstrip_isPrefix : ∀ l : Str, rstrip l <+: l := by
  intro l
  induction l with
  | nil => simp [rstrip]
  | cons c rest ih =>
    simp only [rstrip]
    cases h : rstrip rest with
    | nil =>
      by_cases hc : pyWs c <;> simp [hc]
    | cons x xs =>
      exact List.cons_prefix_cons.mpr ⟨rfl, h ▸ ih⟩

theorem pyStrip_isInfix (l : Str) : pyStrip l <:+: l :=
  (List.IsPrefix.isInfix (rstrip_isPrefix _)).trans
    (List.IsSuffix.isInfix (List.dropWhile_suffix pyWs))

theorem nbspFree_of_infix {l m : Str} (h : l <:+: m) (hm : nbspFree m) : nbspFree l :=
  fun hin => hm (hin.trans h)

theorem nbspFree_subNbsp_eq : ∀ l : Str, nbspFree l → subNbsp l = l := by
  intro l
  induction l using subNbsp.induct with
  | case1 rest ih =>
    intro h
    exact absurd ⟨[], ';' :: rest, rfl⟩ h
  | case2 rest hms ih =>
    intro h
    exact absurd ⟨[], rest, rfl⟩ h
  | case3 c rest h1 h2 ih =>
    intro h
    rw [subNbsp.eq_3 c rest h1 h2, ih (fun hin => h (List.infix_cons hin))]
  | case4 =>
    intro _
    rfl

theorem nextOk_of_ne (a : Char) (h : (a == ' ') = false) (l : Str) : nextOk a l = true := by
  cases l <;> simp [nextOk, h]

theorem collapseGo_fix : ∀ (l : Str) (b : Bool), wsnorm l = true →
    (b = true → ∀ c, l.head? = some c → pyWs c = false) → collapseGo l b = l := by
  intro l
  induction l with
  | nil => intro b _ _; rfl
  | cons a rest ih =>
    intro b hw hh
    rw [wsnorm] at hw
    simp only [Bool.and_eq_true] at hw
    obtain ⟨⟨hsp, hnx⟩, hwr⟩ := hw
    cases b with
    | true =>
      have ha : pyWs a = false := hh rfl a rfl
      rw [show collapseGo (a :: rest) true = a :: collapseGo rest false from by
        simp [collapseGo, ha]]
      rw [ih false hwr (fun hb => by simp at hb)]
    | false =>
      by_cases ha : pyWs a
      · have ha' : a = ' ' := by
          rcases Bool.or_eq_true_iff.mp hsp with h | h
          · rw [ha] at h; simp at h
          · exact eq_of_beq h
        rw [show collapseGo (a :: rest) false = ' ' :: collapseGo rest true from by
          simp [collapseGo, ha]]
        rw [ha']
        have hrest : collapseGo rest true = rest := by
          refine ih true hwr ?_
          intro _ c hc
          cases rest with
          | nil => simp at hc
          | cons b2 r2 =>
            simp only [List.head?_cons, Option.some.injEq] at hc
            subst hc
            rw [ha'] at hnx
            rw [nextOk] at hnx
            simp only [Bool.not_eq_true', Bool.and_eq_false_iff] at hnx
            rcases hnx with h | h
            · simp at h
            · rw [wsnorm] at hwr
              simp only [Bool.and_eq_true] at hwr
              rcases Bool.or_eq_true_iff.mp hwr.1.1 with hb | hb
              · simpa using hb
              · exact absurd (eq_of_beq hb) (by simpa using h)
        rw [hrest]
      · rw [show collapseGo (a :: rest) false = a :: collapseGo rest false from by
          simp [collapseGo, ha]]
        rw [ih false hwr (fun hb => by simp at hb)]

theorem collapseGo_wsnorm : ∀ l : Str,
    (wsnorm (collapseGo l false) = true ∧ wsnorm (collapseGo l true) = true) ∧
    (∀ c, (collapseGo l true).head? = some c → pyWs c = false) := by
  intro l
  induction l with
  | nil =>
    refine ⟨⟨rfl, rfl⟩, ?_⟩
    intro c hc
    simp [collapseGo] at hc
  | cons a rest ih =>
    obtain ⟨⟨ihf, iht⟩, ihh⟩ := ih
    by_cases ha : pyWs a
    · have e1 : collapseGo (a :: rest) false = ' ' :: collapseGo rest true := by
        simp [collapseGo, ha]
      have e2 : collapseGo (a :: rest) true = collapseGo rest true := by
        simp [collapseGo, ha]
      have hnx : nextOk ' ' (collapseGo rest true) = true := by
        cases hT : collapseGo rest true with
        | nil => rfl
        | cons c T2 =>
          have := ihh c (by rw [hT]; rfl)
          rw [nextOk]
          have hcs : (c == ' ') = false := by
            cases hcc : c == ' '
            · rfl
            · rw [eq_of_beq hcc] at this; exact absurd this (by decide)
          simp [hcs]
      refine ⟨⟨?_, ?_⟩, ?_⟩
      · rw [e1, wsnorm]
        simp [iht, hnx]
      · rw [e2]; exact iht
      · rw [e2]; exact ihh
    · have e1 : collapseGo (a :: rest) false = a :: collapseGo rest false := by
        simp [collapseGo, ha]
      have e2 : collapseGo (a :: rest) true = a :: collapseGo rest false := by
        simp [collapseGo, ha]
      have has : (a == ' ') = false := by
        cases hcc : a == ' '
        · rfl
        · rw [eq_of_beq hcc] at ha; exact absurd (by decide) ha
      refine ⟨⟨?_, ?_⟩, ?_⟩
      · rw [e1, wsnorm]
        simp [ihf, ha, nextOk_of_ne a has]
      · rw [e2, wsnorm]
        simp [ihf, ha, nextOk_of_ne a has]
      · rw [e2]
        intro c hc
        simp only [List.head?_cons, Option.some.injEq] at hc
        subst hc
        simpa using ha

theorem wsnorm_tail {a : Char} {rest : Str} (h : wsnorm (a :: rest) = true) :
    wsnorm rest = true := by
  rw [wsnorm] at h
  simp only [Bool.and_eq_true] at h
  exact h.2

theorem wsnorm_dropWhile : ∀ l : Str, wsnorm l = true → wsnorm (l.dropWhile pyWs) = true := by
  intro l
  induction l with
  | nil => intro h; exact h
  | cons a rest ih =>
    intro h
    by_cases ha : pyWs a
    · rw [List.dropWhile_cons_of_pos ha]
      exact ih (wsnorm_tail h)
    · rw [List.dropWhile_cons_of_neg ha]
      exact h

theorem head?_dropWhile : ∀ (l : Str) (c : Char),
    (l.dropWhile pyWs).head? = some c → pyWs c = false := by
  intro l
  induction l with
  | nil => intro c h; simp [List.dropWhile] at h
  | cons a rest ih =>
    intro c h
    by_cases ha : pyWs a
    · rw [List.dropWhile_cons_of_pos ha] at h
      exact ih c h
    · rw [List.dropWhile_cons_of_neg ha] at h
      simp only [List.head?_cons, Option.some.injEq] at h
      subst h
      simpa using ha

theorem rstrip_head? : ∀ l : Str, rstrip l = [] ∨ (rstrip l).head? = l.head? := by
  intro l
  cases l with
  | nil => exact Or.inl rfl
  | cons c rest =>
    simp only [rstrip]
    cases h : rstrip rest with
    | nil =>
      by_cases hc : pyWs c
      · simp [hc]
      · simp [hc]
    | cons x xs => simp

theorem nextOk_congr (a : Char) {l l' : Str} (h : l.head? = l'.head?) :
    nextOk a l = nextOk a l' := by
  cases l with
  | nil =>
    cases l' with
    | nil => rfl
    | cons y ys => simp at h
  | cons x xs =>
    cases l' with
    | nil => simp at h
    | cons y ys =>
      simp only [List.head?_cons, Option.some.injEq] at h
      subst h
      rfl

theorem rstrip_wsnorm : ∀ l : Str, wsnorm l = true → wsnorm (rstrip l) = true := by
  intro l
  induction l with
  | nil => intro h; exact h
  | cons c rest ih =>
    intro h
    have hr := ih (wsnorm_tail h)
    rw [wsnorm] at h
    simp only [Bool.and_eq_true] at h
    obtain ⟨⟨hsp, hnx⟩, hwr⟩ := h
    simp only [rstrip]
    cases hrr : rstrip rest with
    | nil =>
      by_cases hc : pyWs c
      · simp [hc, wsnorm]
      · rw [if_neg hc, wsnorm]
        simp [wsnorm, hsp, nextOk]
    | cons x xs =>
      rw [wsnorm]
      simp only [Bool.and_eq_true]
      refine ⟨⟨hsp, ?_⟩, hrr ▸ hr⟩
      rcases rstrip_head? rest with h0 | h0
      · rw [h0] at hrr; simp at hrr
      · rw [← hrr, nextOk_congr c h0]
        exact hnx

theorem rstrip_getLast? : ∀ (l : Str) (c : Char),
    (rstrip l).getLast? = some c → pyWs c = false := by
  intro l
  induction l with
  | nil => intro c h; simp [rstrip] at h
  | cons a rest ih =>
    intro c h
    simp only [rstrip] at h
    cases hr : rstrip rest with
    | nil =>
      rw [hr] at h
      by_cases ha : pyWs a
      · rw [if_pos ha] at h; simp at h
      · rw [if_neg ha] at h
        simp only [List.getLast?_singleton, Option.some.injEq] at h
        subst h
        simpa using ha
    | cons x xs =>
      rw [hr] at h
      rw [List.getLast?_cons_cons] at h
      exact ih c (hr ▸ h)

theorem rstrip_fix : ∀ l : Str, (∀ c, l.getLast? = some c → pyWs c = false) → rstrip l = l := by
  intro l
  induction l with
  | nil => intro _; rfl
  | cons a rest ih =>
    intro h
    cases rest with
    | nil =>
      have ha := h a (by simp)
      simp [rstrip, ha]
    | cons x xs =>
      have hrest : rstrip (x :: xs) = x :: xs :=
        ih (fun c hc => h c (by rw [List.getLast?_cons_cons]; exact hc))
      conv_lhs => rw [rstrip, hrest]

theorem dropWhile_fix (l : Str) (h : ∀ c, l.head? = some c → pyWs c = false) :
    l.dropWhile pyWs = l := by
  cases l with
  | nil => rfl
  | cons a rest =>
    rw [List.dropWhile_cons_of_neg]
    simp [h a rfl]

/-- One collapse-and-strip pass is idempotent. -/
theorem collapseStrip_idem (z : Str) :
    pyStrip (collapse (pyStrip (collapse z))) = pyStrip (collapse z) := by
  have hwn_u : wsnorm (collapse z) = true := (collapseGo_wsnorm z).1.1
  have hwn_d : wsnorm ((collapse z).dropWhile pyWs) = true := wsnorm_dropWhile _ hwn_u
  have hwn_y : wsnorm (pyStrip (collapse z)) = true := rstrip_wsnorm _ hwn_d
  have hcy : collapse (pyStrip (collapse z)) = pyStrip (collapse z) :=
    collapseGo_fix _ false hwn_y (fun hb => by simp at hb)
  have hhead : ∀ c, (pyStrip (collapse z)).head? = some c → pyWs c = false := by
    intro c hc
    rcases rstrip_head? ((collapse z).dropWhile pyWs) with h0 | h0
    · rw [pyStrip, h0] at hc; simp at hc
    · rw [pyStrip] at hc
      rw [h0] at hc
      exact head?_dropWhile _ c hc
  have hlast : ∀ c, (pyStrip (collapse z)).getLast? = some c → pyWs c = false :=
    fun c hc => rstrip_getLast? _ c hc
  rw [hcy, pyStrip, dropWhile_fix _ hhead, rstrip_fix _ hlast]

theorem strip_html_nbspFree (x : Str) : nbspFree (strip_html x) := by
  rw [strip_html]
  split
  · exact fun h => absurd h (by decide)
  · exact nbspFree_of_infix (pyStrip_isInfix _) (collapseGo_nbspFree _ false (subNbsp_nbspFree _))

/-- C9: sanitization is idempotent on its own output: for every string
whose first `strip_html` pass leaves no remaining `<tag>`-shaped
markup (the tag-substitution pass fixes it), a second `strip_html`
pass changes nothing. -/
theorem strip_html_idempotent (x : Str) (h : subTags (strip_html x) = strip_html x) :
    strip_html (strip_html x) = strip_html x := by
  rcases eq_or_ne (strip_html x) [] with hy | hy
  · rw [hy]; rfl
  · have hx : x ≠ [] := by
      intro hx0
      rw [hx0] at hy
      exact hy rfl
    conv_lhs => rw [strip_html, if_neg hy]
    rw [h, nbspFree_subNbsp_eq _ (strip_html_nbspFree x)]
    rw [show strip_html x = pyStrip (collapse (subNbsp (subTags x))) from by
      rw [strip_html, if_neg hx]]
    exact collapseStrip_idem _

/-- Witness: a concrete string whose first pass removes all markup, on
which `strip_html` is indeed idempotent. -/
theorem strip_html_idempotent_witness :
    subTags (strip_html " a <b>x</b>&nbsp;y ".data) = strip_html " a <b>x</b>&nbsp;y ".data ∧
    strip_html (strip_html " a <b>x</b>&nbsp;y ".data) = strip_html " a <b>x</b>&nbsp;y ".data :=
  ⟨by decide, strip_html_idempotent _ (by decide)⟩

/-! ## C2: the date normalizer refines its specification -/

/-- C2: `parse_pubdate` checks `published_parsed` then `updated_parsed`
and, when such a field is present and well formed, returns the UTC
instant of its first six components with no timezone conversion; else
it tries `published`, `updated`, `created` in order, assuming UTC for
naive parses and converting aware ones; when every candidate is
absent, fails or raises it returns `none` — i.e. it agrees with the
spec-side normalizer on every entry and every parser oracle. -/
theorem parse_pubdate_refines (dparse : Str → Option NaiveDT) (e : Entry) :
    parse_pubdate dparse e = specParsePubdate dparse e := by
  have hs : ∀ t?, tryStructField t? = specStructCand t? := by
    intro t?
    cases t? with
    | none => rfl
    | some t =>
      by_cases ht : t = []
      · subst ht
        simp [tryStructField, specStructCand, validParts]
      · simp [tryStructField, specStructCand, ht]
  have htx : ∀ s?, tryTextField dparse s? = specTextCand dparse s? := by
    intro s?
    cases s? with
    | none => rfl
    | some s =>
      by_cases hs0 : s = []
      · simp [tryTextField, specTextCand, hs0]
      · simp only [tryTextField, specTextCand, if_neg hs0]
        cases hd : dparse s with
        | none => rfl
        | some d =>
          cases htz : d.tz with
          | none => simp [htz]
          | some off => simp [htz]
  simp only [parse_pubdate, specParsePubdate, hs, htx]
  cases h1 : specStructCand e.published_parsed <;>
    cases h2 : specStructCand e.updated_parsed <;>
      cases h3 : specTextCand dparse e.published <;>
        cases h4 : specTextCand dparse e.updated <;>
          cases h5 : specTextCand dparse e.created <;>
            simp [List.findSome?_cons, h1, h2, h3, h4, h5]

/-! ## C5: the sanitizer against its spec sentence -/

theorem subTagsGo_eq_tagMachine : ∀ (l : Str) (p : Option Str),
    subTagsGo l p = tagMachine [' '] l p := by
  intro l
  induction l with
  | nil => intro p; cases p <;> rfl
  | cons c rest ih =>
    intro p
    cases p with
    | none =>
      by_cases hc : c = '<' <;> simp [subTagsGo, tagMachine, hc, ih]
    | some buf =>
      by_cases hc : c = '>'
      · by_cases hb : buf = [] <;> simp [subTagsGo, tagMachine, hc, hb, ih]
      · simp [subTagsGo, tagMachine, hc, ih]

/-- C5 counterexample: on `"a<b>c"` the code replaces the tag by a
space and yields `"a c"`, while the claimed pipeline (markup spans
*removed*, i.e. deleted) yields `"ac"`. -/
theorem strip_html_remove_counterexample :
    strip_html "a<b>c".data = "a c".data ∧
    specSanitizeRemove "a<b>c".data = "ac".data ∧
    strip_html "a<b>c".data ≠ specSanitizeRemove "a<b>c".data :=
  ⟨by decide, by decide, by decide⟩

/-- C5 amended: the sanitizer maps empty input to the empty string,
replaces every `<tag>`-shaped markup span *by one space*, replaces
each `&nbsp;`/`&nbsp` entity by a space, then collapses whitespace
runs and trims — `strip_html` equals that pipeline on every input. -/
theorem strip_html_eq_specSanitizeSpace (s : Str) : strip_html s = specSanitizeSpace s := by
  rw [strip_html, specSanitizeSpace, subTags, subTagsGo_eq_tagMachine]

/-! ## C6: summary truncation in the formatted message -/

/-- C6: the summary line carries exactly the first 300 characters plus
one ellipsis character iff the sanitized summary exceeds 300
characters, is the summary unmodified when `0 < length ≤ 300`, and is
omitted (the message is just the title/link block) iff the sanitized
summary is empty. -/
theorem formatText_summary (title link summary : Str) :
    (300 < summary.length →
      formatText title link summary =
        "*New:* ".data ++ title ++ "\n".data ++ link ++ "\n".data ++
          summary.take 300 ++ "…".data) ∧
    (summary ≠ [] → summary.length ≤ 300 →
      formatText title link summary =
        "*New:* ".data ++ title ++ "\n".data ++ link ++ "\n".data ++ summary) ∧
    (formatText title link summary = "*New:* ".data ++ title ++ "\n".data ++ link ↔
      summary = []) := by
  refine ⟨?_, ?_, ?_, ?_⟩
  · intro h
    have hne : summary ≠ [] := by
      intro h0
      rw [h0] at h
      simp at h
    simp [formatText, hne, h]
  · intro hne hle
    simp [formatText, hne, Nat.not_lt.mpr hle, hle]
  · intro h
    by_contra hne
    have := congrArg List.length h
    simp [formatText, hne, List.length_append, List.length_take] at this
  · intro h
    simp [formatText, h]

/-- Witness for C6 at a 301-character and a short summary. -/
theorem formatText_summary_witness :
    formatText "t".data "l".data (List.replicate 301 'a') =
      "*New:* ".data ++ "t".data ++ "\n".data ++ "l".data ++ "\n".data ++
        (List.replicate 301 'a').take 300 ++ "…".data ∧
    formatText "t".data "l".data "s".data =
      "*New:* ".data ++ "t".data ++ "\n".data ++ "l".data ++ "\n".data ++ "s".data :=
  ⟨(formatText_summary _ _ _).1 (by rw [List.length_replicate]; omega),
   (formatText_summary _ _ _).2.1 (by simp) (by simp)⟩

/-! ## C7: the webhook poster's boundary contract -/

/-- C7: `post_to_slack` is total (never raises past its boundary).  In
dry-run mode the outcome is success, independent of the transport (no
network call).  Otherwise: success iff the HTTP status lies in
`[200, 300)`; the reported body excerpt is the response body truncated
to at most 200 characters; a transport-level exception yields the
sentinel status `-1` with the exception description. -/
theorem post_to_slack_contract :
    (∀ (text : Str) (net net' : HttpResult),
      post_to_slack true text net = post_to_slack true text net' ∧
      post_to_slack true text net = (true, 0, "DRY_RUN".data)) ∧
    (∀ (text : Str) (s : Int) (b : Str),
      ((post_to_slack false text (.ok s b)).1 = true ↔ 200 ≤ s ∧ s < 300) ∧
      (post_to_slack false text (.ok s b)).2.1 = s ∧
      (post_to_slack false text (.ok s b)).2.2 = b.take 200 ∧
      (post_to_slack false text (.ok s b)).2.2.length ≤ 200) ∧
    (∀ (text en em : Str),
      post_to_slack false text (.exn en em) = (false, -1, en ++ ": ".data ++ em)) := by
  refine ⟨fun text net net' => ⟨rfl, rfl⟩, fun text s b => ⟨?_, rfl, rfl, ?_⟩,
    fun text en em => rfl⟩
  · simp [post_to_slack]
  · simp [post_to_slack, List.length_take]

/-- Witness for C7: a successful 204 response, and a transport failure. -/
theorem post_to_slack_contract_witness :
    (post_to_slack false [] (.ok 204 "No Content".data)).1 = true ∧
    post_to_slack false [] (.exn "Timeout".data "boom".data) =
      (false, -1, "Timeout: boom".data) :=
  ⟨(post_to_slack_contract.2.1 [] 204 "No Content".data).1.mpr (by omega),
   (post_to_slack_contract.2.2 [] "Timeout".data "boom".data).trans (by decide)⟩

/-! ## C8: exit codes of `main` -/

/-- C8: with the webhook endpoint missing `main` exits with the
distinct non-zero code 2 before touching any feed (no stats, no post
calls); with a webhook configured it exits 0 on every completion —
including an empty `FEED_URLS` (benign no-op, no feed processed) and
runs where every feed fails. -/
theorem main_exit_codes (cfg : Config) (w : World) :
    (cfg.WEBHOOK = [] →
      (pymain cfg w).exitCode = 2 ∧ (pymain cfg w).stats = [] ∧
      (pymain cfg w).slackCalls = []) ∧
    (cfg.WEBHOOK ≠ [] → cfg.FEED_URLS = [] →
      (pymain cfg w).exitCode = 0 ∧ (pymain cfg w).stats = []) ∧
    (cfg.WEBHOOK ≠ [] → (pymain cfg w).exitCode = 0) := by
  refine ⟨?_, ?_, ?_⟩
  · intro h
    simp [pymain, h]
  · intro h1 h2
    simp [pymain, h1, h2]
  · intro h1
    by_cases h2 : cfg.FEED_URLS = [] <;> simp [pymain, h1, h2]

/-- Witness for C8: the three exit-code cases at concrete configs (the
last one with a feed whose fetch raises). -/
theorem main_exit_codes_witness :
    (pymain ⟨"a".data, [], 70, false, 30⟩
        ⟨fun _ => .parsed [], fun _ => none, 0⟩).exitCode = 2 ∧
    (pymain ⟨[], "h".data, 70, false, 30⟩
        ⟨fun _ => .parsed [], fun _ => none, 0⟩).exitCode = 0 ∧
    (pymain ⟨"a".data, "h".data, 70, false, 30⟩
        ⟨fun _ => .raises, fun _ => none, 0⟩).exitCode = 0 :=
  ⟨((main_exit_codes _ _).1 rfl).1,
   ((main_exit_codes _ _).2.1 (by decide) rfl).1,
   (main_exit_codes ⟨"a".data, "h".data, 70, false, 30⟩
      ⟨fun _ => .raises, fun _ => none, 0⟩).2.2 (by decide)⟩


/-! ## Step equations and counter invariants of the entry loop -/

theorem feedLoop_cons_cap {cfg : Config} {dp : Str → Option NaiveDT} {cut : Int}
    {e : Entry} {rest : List Entry} {st : FeedStats} {gp : Nat}
    (hcap : cfg.MAX_POSTS ≤ gp) :
    feedLoop cfg dp cut (e :: rest) st gp = ⟨st, gp, [], [.capReached]⟩ := by
  rw [feedLoop, if_pos hcap]

theorem feedLoop_cons_nodate {cfg : Config} {dp : Str → Option NaiveDT} {cut : Int}
    {e : Entry} {rest : List Entry} {st : FeedStats} {gp : Nat}
    (hcap : ¬ cfg.MAX_POSTS ≤ gp) (hp : parse_pubdate dp e = none) :
    feedLoop cfg dp cut (e :: rest) st gp =
      feedLoop cfg dp cut rest { st with skipped_no_date := st.skipped_no_date + 1 } gp := by
  rw [feedLoop, if_neg hcap]
  simp only [hp]

theorem feedLoop_cons_old {cfg : Config} {dp : Str → Option NaiveDT} {cut : Int}
    {e : Entry} {rest : List Entry} {st : FeedStats} {gp : Nat} {pub : Int}
    (hcap : ¬ cfg.MAX_POSTS ≤ gp) (hp : parse_pubdate dp e = some pub) (hold : pub < cut) :
    feedLoop cfg dp cut (e :: rest) st gp =
      feedLoop cfg dp cut rest { st with skipped_old := st.skipped_old + 1 } gp := by
  rw [feedLoop, if_neg hcap]
  simp only [hp, if_pos hold]

theorem feedLoop_cons_post {cfg : Config} {dp : Str → Option NaiveDT} {cut : Int}
    {e : Entry} {rest : List Entry} {st : FeedStats} {gp : Nat} {pub : Int}
    (hcap : ¬ cfg.MAX_POSTS ≤ gp) (hp : parse_pubdate dp e = some pub) (hold : ¬ pub < cut)
    (hres : (post_to_slack cfg.DRY_RUN (entryText e) e.postResponse).1 = true) :
    feedLoop cfg dp cut (e :: rest) st gp =
      ⟨(feedLoop cfg dp cut rest
          { st with in_window := st.in_window + 1, posted := st.posted + 1 } (gp + 1)).st,
       (feedLoop cfg dp cut rest
          { st with in_window := st.in_window + 1, posted := st.posted + 1 } (gp + 1)).gp,
       entryText e :: (feedLoop cfg dp cut rest
          { st with in_window := st.in_window + 1, posted := st.posted + 1 } (gp + 1)).calls,
       .postedLine (post_to_slack cfg.DRY_RUN (entryText e) e.postResponse).2.1
           ((pyOr e.title "(no title)".data).take 60) ::
         (feedLoop cfg dp cut rest
           { st with in_window := st.in_window + 1, posted := st.posted + 1 } (gp + 1)).log⟩ := by
  rw [feedLoop, if_neg hcap]
  simp only [hp, if_neg hold]
  rw [if_pos hres]

theorem feedLoop_cons_err {cfg : Config} {dp : Str → Option NaiveDT} {cut : Int}
    {e : Entry} {rest : List Entry} {st : FeedStats} {gp : Nat} {pub : Int}
    (hcap : ¬ cfg.MAX_POSTS ≤ gp) (hp : parse_pubdate dp e = some pub) (hold : ¬ pub < cut)
    (hres : ¬ (post_to_slack cfg.DRY_RUN (entryText e) e.postResponse).1 = true) :
    feedLoop cfg dp cut (e :: rest) st gp =
      ⟨(feedLoop cfg dp cut rest
          { st with in_window := st.in_window + 1, skipped_error := st.skipped_error + 1 } gp).st,
       (feedLoop cfg dp cut rest
          { st with in_window := st.in_window + 1, skipped_error := st.skipped_error + 1 } gp).gp,
       entryText e :: (feedLoop cfg dp cut rest
          { st with in_window := st.in_window + 1, skipped_error := st.skipped_error + 1 } gp).calls,
       .errorLine (post_to_slack cfg.DRY_RUN (entryText e) e.postResponse).2.1
           (post_to_slack cfg.DRY_RUN (entryText e) e.postResponse).2.2 ::
         (feedLoop cfg dp cut rest
           { st with in_window := st.in_window + 1, skipped_error := st.skipped_error + 1 } gp).log⟩ := by
  rw [feedLoop, if_neg hcap]
  simp only [hp, if_neg hold]
  rw [if_neg hres]

theorem feedLoop_facts (cfg : Config) (dp : Str → Option NaiveDT) (cut : Int) :
    ∀ (es : List Entry) (st : FeedStats) (gp : Nat),
      (feedLoop cfg dp cut es st gp).st.total = st.total ∧
      gp ≤ (feedLoop cfg dp cut es st gp).gp ∧
      (feedLoop cfg dp cut es st gp).st.posted + gp =
        st.posted + (feedLoop cfg dp cut es st gp).gp ∧
      (feedLoop cfg dp cut es st gp).st.posted + st.in_window ≤
        st.posted + (feedLoop cfg dp cut es st gp).st.in_window ∧
      (gp ≤ cfg.MAX_POSTS → (feedLoop cfg dp cut es st gp).gp ≤ cfg.MAX_POSTS) ∧
      (feedLoop cfg dp cut es st gp).st.in_window +
          (feedLoop cfg dp cut es st gp).st.skipped_no_date +
          (feedLoop cfg dp cut es st gp).st.skipped_old ≤
        st.in_window + st.skipped_no_date + st.skipped_old + es.length ∧
      ((feedLoop cfg dp cut es st gp).gp < cfg.MAX_POSTS →
        (feedLoop cfg dp cut es st gp).st.in_window +
            (feedLoop cfg dp cut es st gp).st.skipped_no_date +
            (feedLoop cfg dp cut es st gp).st.skipped_old =
          st.in_window + st.skipped_no_date + st.skipped_old + es.length) := by
  intro es
  induction es with
  | nil =>
    intro st gp
    rw [feedLoop]
    exact ⟨rfl, Nat.le_refl _, rfl, Nat.le_refl _, fun h => h, Nat.le_add_right _ _,
      fun _ => rfl⟩
  | cons e rest ih =>
    intro st gp
    by_cases hcap : cfg.MAX_POSTS ≤ gp
    · rw [feedLoop_cons_cap hcap]
      exact ⟨rfl, Nat.le_refl _, rfl, Nat.le_refl _, fun h => h,
        Nat.le_add_right _ _, fun h => absurd h (Nat.not_lt.mpr hcap)⟩
    · cases hp : parse_pubdate dp e with
      | none =>
        rw [feedLoop_cons_nodate hcap hp]
        obtain ⟨h1, h2, h3, h4, h5, h6, h7⟩ :=
          ih { st with skipped_no_date := st.skipped_no_date + 1 } gp
        simp only [List.length_cons] at *
        refine ⟨h1, h2, h3, by omega, h5, by omega, fun hlt => by have := h7 hlt; omega⟩
      | some pub =>
        by_cases hold : pub < cut
        · rw [feedLoop_cons_old hcap hp hold]
          obtain ⟨h1, h2, h3, h4, h5, h6, h7⟩ :=
            ih { st with skipped_old := st.skipped_old + 1 } gp
          simp only [List.length_cons] at *
          refine ⟨h1, h2, h3, by omega, h5, by omega, fun hlt => by have := h7 hlt; omega⟩
        · by_cases hres : (post_to_slack cfg.DRY_RUN (entryText e) e.postResponse).1 = true
          · rw [feedLoop_cons_post hcap hp hold hres]
            obtain ⟨h1, h2, h3, h4, h5, h6, h7⟩ :=
              ih { st with in_window := st.in_window + 1, posted := st.posted + 1 } (gp + 1)
            simp only [List.length_cons] at *
            refine ⟨h1, by omega, by omega, by omega, fun hc => h5 (by omega), by omega,
              fun hlt => by have := h7 hlt; omega⟩
          · rw [feedLoop_cons_err hcap hp hold hres]
            obtain ⟨h1, h2, h3, h4, h5, h6, h7⟩ :=
              ih { st with in_window := st.in_window + 1, skipped_error := st.skipped_error + 1 } gp
            simp only [List.length_cons] at *
            refine ⟨h1, h2, by omega, by omega, h5, by omega,
              fun hlt => by have := h7 hlt; omega⟩

theorem feedLoop_capped {cfg : Config} {dp : Str → Option NaiveDT} {cut : Int}
    (es : List Entry) (st : FeedStats) (gp : Nat) (hcap : cfg.MAX_POSTS ≤ gp) :
    (feedLoop cfg dp cut es st gp).st = st ∧
    (feedLoop cfg dp cut es st gp).gp = gp ∧
    (feedLoop cfg dp cut es st gp).calls = [] := by
  cases es with
  | nil => exact ⟨rfl, rfl, rfl⟩
  | cons e rest => rw [feedLoop_cons_cap hcap]; exact ⟨rfl, rfl, rfl⟩

theorem feedLoop_calls_prefix (cfg : Config) (dp : Str → Option NaiveDT) (cut : Int) :
    ∀ (es : List Entry) (st : FeedStats) (gp : Nat),
      ∀ t ∈ (feedLoop cfg dp cut es st gp).calls, "*New:* ".data <+: t := by
  intro es
  induction es with
  | nil =>
    intro st gp t ht
    rw [feedLoop] at ht
    simp at ht
  | cons e rest ih =>
    intro st gp t ht
    have hfmt : ∀ title link summary, "*New:* ".data <+: formatText title link summary := by
      intro title link summary
      rw [formatText]
      split
      · rw [List.append_assoc, List.append_assoc]
        exact List.prefix_append _ _
      · simp only [List.append_assoc]
        exact List.prefix_append _ _
    by_cases hcap : cfg.MAX_POSTS ≤ gp
    · rw [feedLoop_cons_cap hcap] at ht
      simp at ht
    · cases hp : parse_pubdate dp e with
      | none =>
        rw [feedLoop_cons_nodate hcap hp] at ht
        exact ih _ gp t ht
      | some pub =>
        by_cases hold : pub < cut
        · rw [feedLoop_cons_old hcap hp hold] at ht
          exact ih _ gp t ht
        · by_cases hres : (post_to_slack cfg.DRY_RUN (entryText e) e.postResponse).1 = true
          · rw [feedLoop_cons_post hcap hp hold hres] at ht
            simp only [List.mem_cons] at ht
            rcases ht with rfl | ht
            · exact hfmt _ _ _
            · exact ih _ _ t ht
          · rw [feedLoop_cons_err hcap hp hold hres] at ht
            simp only [List.mem_cons] at ht
            rcases ht with rfl | ht
            · exact hfmt _ _ _
            · exact ih _ _ t ht

theorem processFeed_facts (cfg : Config) (w : World) (cut : Int) (gp : Nat) (url : Str) :
    gp ≤ (processFeed cfg w cut gp url).gp ∧
    (processFeed cfg w cut gp url).st.posted + gp = (processFeed cfg w cut gp url).gp ∧
    (gp ≤ cfg.MAX_POSTS → (processFeed cfg w cut gp url).gp ≤ cfg.MAX_POSTS) ∧
    (processFeed cfg w cut gp url).st.posted ≤ (processFeed cfg w cut gp url).st.in_window ∧
    (processFeed cfg w cut gp url).st.in_window +
        (processFeed cfg w cut gp url).st.skipped_no_date +
        (processFeed cfg w cut gp url).st.skipped_old ≤
      (processFeed cfg w cut gp url).st.total ∧
    ((processFeed cfg w cut gp url).gp < cfg.MAX_POSTS →
      (processFeed cfg w cut gp url).st.in_window +
          (processFeed cfg w cut gp url).st.skipped_no_date +
          (processFeed cfg w cut gp url).st.skipped_old =
        (processFeed cfg w cut gp url).st.total) ∧
    (∀ t ∈ (processFeed cfg w cut gp url).calls, "*New:* ".data <+: t) := by
  cases hf : w.fetch url with
  | raises =>
    simp only [processFeed, hf]
    refine ⟨Nat.le_refl _, by omega, fun h => h, Nat.le_refl _, Nat.le_refl _,
      fun _ => trivial, ?_⟩
    intro t ht
    simp at ht
  | parsed es =>
    simp only [processFeed, hf]
    obtain ⟨h1, h2, h3, h4, h5, h6, h7⟩ :=
      feedLoop_facts cfg w.dparse cut es ⟨es.length, 0, 0, 0, 0, 0⟩ gp
    simp only at h1 h3 h4 h6 h7
    refine ⟨h2, by omega, h5, by omega, by omega, fun hlt => by have := h7 hlt; omega, ?_⟩
    intro t ht
    exact feedLoop_calls_prefix cfg w.dparse cut es _ gp t ht

theorem runFeeds_facts (cfg : Config) (w : World) (cut : Int) :
    ∀ (feeds : List Str) (gp : Nat),
      gp ≤ (runFeeds cfg w cut feeds gp).gp ∧
      (runFeeds cfg w cut feeds gp).gp =
        gp + (((runFeeds cfg w cut feeds gp).stats).map (·.posted)).sum ∧
      (gp ≤ cfg.MAX_POSTS → (runFeeds cfg w cut feeds gp).gp ≤ cfg.MAX_POSTS) ∧
      (∀ s ∈ (runFeeds cfg w cut feeds gp).stats,
        s.posted ≤ s.in_window ∧
        s.in_window + s.skipped_no_date + s.skipped_old ≤ s.total ∧
        ((runFeeds cfg w cut feeds gp).gp < cfg.MAX_POSTS →
          s.in_window + s.skipped_no_date + s.skipped_old = s.total)) ∧
      (∀ t ∈ (runFeeds cfg w cut feeds gp).calls, "*New:* ".data <+: t) := by
  intro feeds
  induction feeds with
  | nil =>
    intro gp
    rw [runFeeds]
    refine ⟨Nat.le_refl _, by simp, fun h => h, ?_, ?_⟩
    · intro s hs
      simp at hs
    · intro t ht
      simp at ht
  | cons url rest ih =>
    intro gp
    obtain ⟨p1, p2, p3, p4, p5, p6, p7⟩ := processFeed_facts cfg w cut gp url
    obtain ⟨r1, r2, r3, r4, r5⟩ := ih (processFeed cfg w cut gp url).gp
    rw [runFeeds]
    simp only
    refine ⟨Nat.le_trans p1 r1, ?_, fun h => r3 (p3 h), ?_, ?_⟩
    · simp only [List.map_cons, List.sum_cons]
      omega
    · intro s hs
      simp only [List.mem_cons] at hs
      rcases hs with rfl | hs
      · exact ⟨p4, p5, fun hlt => p6 (Nat.lt_of_le_of_lt r1 hlt)⟩
      · obtain ⟨q1, q2, q3⟩ := r4 s hs
        exact ⟨q1, q2, q3⟩
    · intro t ht
      simp only [List.mem_append] at ht
      rcases ht with ht | ht
      · exact p7 t ht
      · exact r5 t ht

/-! ## C1: global cap and posted-vs-in-window accounting -/

/-- C1: in every run the global posted counter never exceeds
`MAX_POSTS`, it equals the sum of the per-feed `posted` counters, and
that sum never exceeds the sum of the per-feed `in_window` counters. -/
theorem run_posting_caps (cfg : Config) (w : World) :
    (pymain cfg w).grandPosted ≤ cfg.MAX_POSTS ∧
    (pymain cfg w).grandPosted = (((pymain cfg w).stats).map (·.posted)).sum ∧
    (((pymain cfg w).stats).map (·.posted)).sum ≤
      (((pymain cfg w).stats).map (·.in_window)).sum := by
  by_cases h1 : cfg.WEBHOOK = []
  · simp [pymain, h1]
  · by_cases h2 : cfg.FEED_URLS = []
    · simp [pymain, h1, h2]
    · obtain ⟨r1, r2, r3, r4, r5⟩ :=
        runFeeds_facts cfg w (w.now - 60 * (cfg.WINDOWMIN : Int)) (feedsOf cfg) 0
      simp only [pymain, if_neg h1, if_neg h2]
      refine ⟨r3 (Nat.zero_le _), by omega, ?_⟩
      exact List.sum_le_sum (fun s hs => (r4 s hs).1)

/-! ## C3: per-feed classification of entries -/

/-- C3 counterexample: with `MAX_POSTS = 0` and a one-entry feed the
loop breaks before inspecting the entry, so `total = 1` while
`in_window + skipped_no_date + skipped_old = 0`: the claimed per-feed
equality fails on a run where the cap is reached partway. -/
theorem per_feed_total_counterexample :
    ((pymain ⟨"a".data, "h".data, 70, false, 0⟩
        ⟨fun _ => .parsed [{}], fun _ => none, 0⟩).stats.all
      (fun s => s.total = s.in_window + s.skipped_no_date + s.skipped_old)) = false := by
  decide

/-- C3 amended: for every feed of every run,
`in_window + skipped_no_date + skipped_old ≤ total`, with equality
whenever the run's global post cap was never reached (in particular
whenever the final `grand_posted` stays below `MAX_POSTS`); when the
cap-induced break cuts a feed short the uninspected entries leave the
sum strictly below `total`.  Errors are counted separately. -/
theorem per_feed_classification (cfg : Config) (w : World) (s : FeedStats)
    (hs : s ∈ (pymain cfg w).stats) :
    s.in_window + s.skipped_no_date + s.skipped_old ≤ s.total ∧
    ((pymain cfg w).grandPosted < cfg.MAX_POSTS →
      s.in_window + s.skipped_no_date + s.skipped_old = s.total) := by
  by_cases h1 : cfg.WEBHOOK = []
  · simp [pymain, h1] at hs
  · by_cases h2 : cfg.FEED_URLS = []
    · simp [pymain, h1, h2] at hs
    · obtain ⟨r1, r2, r3, r4, r5⟩ :=
        runFeeds_facts cfg w (w.now - 60 * (cfg.WINDOWMIN : Int)) (feedsOf cfg) 0
      simp only [pymain, if_neg h1, if_neg h2] at hs ⊢
      obtain ⟨q1, q2, q3⟩ := r4 s hs
      exact ⟨q2, q3⟩

/-- Witness for C3 (amended): a run with budget left over, one feed,
one dateless entry: the classification is exact. -/
theorem per_feed_classification_witness :
    (⟨1, 0, 0, 1, 0, 0⟩ : FeedStats).in_window +
        (⟨1, 0, 0, 1, 0, 0⟩ : FeedStats).skipped_no_date +
        (⟨1, 0, 0, 1, 0, 0⟩ : FeedStats).skipped_old =
      (⟨1, 0, 0, 1, 0, 0⟩ : FeedStats).total :=
  (per_feed_classification ⟨"a".data, "h".data, 70, false, 30⟩
      ⟨fun _ => .parsed [{}], fun _ => none, 0⟩ ⟨1, 0, 0, 1, 0, 0⟩ (by decide)).2
    (by decide)

/-! ## C10: exhausted budget inspects nothing -/

theorem runFeeds_capped (cfg : Config) (w : World) (cut : Int)
    (h0 : cfg.MAX_POSTS = 0) :
    ∀ feeds : List Str,
      (runFeeds cfg w cut feeds 0).stats = feeds.map (fun url =>
        match w.fetch url with
        | .raises => ⟨0, 0, 0, 0, 0, 1⟩
        | .parsed es => ⟨es.length, 0, 0, 0, 0, 0⟩) ∧
      (runFeeds cfg w cut feeds 0).gp = 0 ∧
      (runFeeds cfg w cut feeds 0).calls = [] := by
  intro feeds
  induction feeds with
  | nil => exact ⟨rfl, rfl, rfl⟩
  | cons url rest ih =>
    have hcap : cfg.MAX_POSTS ≤ 0 := by omega
    obtain ⟨ih1, ih2, ih3⟩ := ih
    have hpf : (processFeed cfg w cut 0 url).st = (match w.fetch url with
        | .raises => (⟨0, 0, 0, 0, 0, 1⟩ : FeedStats)
        | .parsed es => ⟨es.length, 0, 0, 0, 0, 0⟩) ∧
        (processFeed cfg w cut 0 url).gp = 0 ∧
        (processFeed cfg w cut 0 url).calls = [] := by
      cases hf : w.fetch url with
      | raises => simp [processFeed, hf]
      | parsed es =>
        obtain ⟨c1, c2, c3⟩ :=
          @feedLoop_capped cfg w.dparse cut es ⟨es.length, 0, 0, 0, 0, 0⟩ 0 hcap
        simp [processFeed, hf, c1, c2, c3]
    obtain ⟨f1, f2, f3⟩ := hpf
    rw [runFeeds]
    simp only [List.map_cons]
    refine ⟨?_, ?_, ?_⟩
    · rw [f1, f2, ih1]
    · rw [f2, ih2]
    · rw [f3, f2, ih3]
      rfl

/-- C10: with `MAX_POSTS = 0` (webhook configured, non-empty feed
list) no entry of any feed is inspected or posted: each feed's `total`
is its entry count (0 for a failed fetch, which counts one error)
while `in_window`, `posted`, `skipped_no_date`, `skipped_old` stay 0,
and no post call occurs.  Likewise, once the budget is exhausted, the
entry loop of any further feed exits before its first entry, leaving
its counters and calls untouched. -/
theorem max_posts_zero (cfg : Config) (w : World) (h0 : cfg.MAX_POSTS = 0)
    (hw : cfg.WEBHOOK ≠ []) (hf : cfg.FEED_URLS ≠ []) :
    (pymain cfg w).stats = (feedsOf cfg).map (fun url =>
      match w.fetch url with
      | .raises => ⟨0, 0, 0, 0, 0, 1⟩
      | .parsed es => ⟨es.length, 0, 0, 0, 0, 0⟩) ∧
    (pymain cfg w).slackCalls = [] ∧
    (∀ (cut : Int) (es : List Entry) (st : FeedStats) (gp : Nat),
      cfg.MAX_POSTS ≤ gp →
      (feedLoop cfg w.dparse cut es st gp).st = st ∧
      (feedLoop cfg w.dparse cut es st gp).gp = gp ∧
      (feedLoop cfg w.dparse cut es st gp).calls = []) := by
  obtain ⟨c1, c2, c3⟩ :=
    runFeeds_capped cfg w (w.now - 60 * (cfg.WINDOWMIN : Int)) h0 (feedsOf cfg)
  simp only [pymain, if_neg hw, if_neg hf]
  exact ⟨c1, c3, fun cut es st gp hcap => feedLoop_capped es st gp hcap⟩

/-- Witness for C10: two feeds (one of two entries, one erroring),
`MAX_POSTS = 0`. -/
theorem max_posts_zero_witness :
    (pymain ⟨"a,b".data, "h".data, 70, false, 0⟩
        ⟨fun u => if u = "a".data then .parsed [{}, {}] else .raises,
         fun _ => none, 0⟩).stats =
      [⟨2, 0, 0, 0, 0, 0⟩, ⟨0, 0, 0, 0, 0, 1⟩] ∧
    (pymain ⟨"a,b".data, "h".data, 70, false, 0⟩
        ⟨fun u => if u = "a".data then .parsed [{}, {}] else .raises,
         fun _ => none, 0⟩).slackCalls = [] :=
  ⟨(max_posts_zero _ _ rfl (by decide) (by decide)).1.trans (by decide),
   (max_posts_zero _ _ rfl (by decide) (by decide)).2.1⟩

/-! ## C4: the summary is logged but never posted to the webhook -/

/-- C4 counterexample: a complete run (webhook configured, one feed,
dry-run off) that emits the summary block to the log yet performs no
post call at all — in particular the summary report is not posted to
the webhook, contradicting the claimed reference behaviour. -/
theorem summary_not_posted_counterexample :
    (pymain ⟨"a".data, "h".data, 70, false, 30⟩
        ⟨fun _ => .parsed [], fun _ => none, 0⟩).slackCalls = [] ∧
    LogEvent.summaryHeader ∈ (pymain ⟨"a".data, "h".data, 70, false, 30⟩
        ⟨fun _ => .parsed [], fun _ => none, 0⟩).log :=
  ⟨by decide, by decide⟩

/-- C4 amended: after processing all feeds the run always emits the
summary report to the standard log stream (the summary block and the
final `Posted: n` marker), and it never posts the summary to the
webhook — every text handed to the poster is a per-entry
`*New:* …` message. -/
theorem summary_logged_not_posted (cfg : Config) (w : World)
    (hw : cfg.WEBHOOK ≠ []) (hf : cfg.FEED_URLS ≠ []) :
    LogEvent.summaryHeader ∈ (pymain cfg w).log ∧
    LogEvent.postedMarker (pymain cfg w).grandPosted ∈ (pymain cfg w).log ∧
    ∀ t ∈ (pymain cfg w).slackCalls, "*New:* ".data <+: t := by
  obtain ⟨r1, r2, r3, r4, r5⟩ :=
    runFeeds_facts cfg w (w.now - 60 * (cfg.WINDOWMIN : Int)) (feedsOf cfg) 0
  simp only [pymain, if_neg hw, if_neg hf]
  refine ⟨?_, ?_, ?_⟩
  · simp
  · simp
  · intro t ht
    exact r5 t ht

/-- Witness for C4 (amended): a concrete dry-run over one feed with
one in-window entry. -/
theorem summary_logged_not_posted_witness :
    LogEvent.summaryHeader ∈ (pymain ⟨"a".data, "h".data, 70, true, 30⟩
        ⟨fun _ => .parsed [{ published_parsed := some [2024, 1, 1, 12, 0, 0] }],
         fun _ => none, utcFromParts [2024, 1, 1, 12, 0, 0]⟩).log ∧
    LogEvent.postedMarker (pymain ⟨"a".data, "h".data, 70, true, 30⟩
        ⟨fun _ => .parsed [{ published_parsed := some [2024, 1, 1, 12, 0, 0] }],
         fun _ => none, utcFromParts [2024, 1, 1, 12, 0, 0]⟩).grandPosted ∈
      (pymain ⟨"a".data, "h".data, 70, true, 30⟩
        ⟨fun _ => .parsed [{ published_parsed := some [2024, 1, 1, 12, 0, 0] }],
         fun _ => none, utcFromParts [2024, 1, 1, 12, 0, 0]⟩).log :=
  ⟨(summary_logged_not_posted _ _ (by decide) (by decide)).1,
   (summary_logged_not_posted _ _ (by decide) (by decide)).2.1⟩
